import Mathlib

/-!
Verification of the BICGSTAB FEM solver (fem_matrix.c / bicgstab_serial.c /
bicgstab_parallel.c) against its specification.

Shallow embedding conventions:
* C `double` arithmetic is idealized as exact rational arithmetic (ℚ).
* `vector_norm` in the source computes `sqrt(dot(x,x,n))`; since only
  comparisons of non-negative norms occur (`s_norm / bnorm < tol`), they are
  embedded by the equivalent comparison of squares: for `bnorm > 0`,
  `sqrt(d) / bnorm < tol  ↔  0 < tol ∧ d < tol^2 * bnorm^2`.
  Correspondingly `bnorm == 0.0 → bnorm = 1.0` becomes
  `dot(b,b,n) = 0 → bnormSq = 1` (over exact arithmetic `sqrt d = 0 ↔ d = 0`).
* Out-of-range array reads (undefined behaviour in C) are modelled by
  `List.getD _ _ 0`; all in-contract inputs stay in range.
* Division by zero (the unguarded `alpha` denominator, a documented gap in the
  spec) is total in ℚ with value 0; no claim below exercises that path.
-/

/-- CSR sparse matrix, from `fem_matrix.h` (`CSRMatrix`). -/
structure CSRMatrix where
  n : ℕ
  nnz : ℕ
  values : List ℚ
  col_idx : List ℕ
  row_ptr : List ℕ
deriving DecidableEq

/-- The linear system Ax = b, from `fem_matrix.h` (`FEMSystem`). -/
structure FEMSystem where
  A : CSRMatrix
  b : List ℚ
  x : List ℚ
  n : ℕ
deriving DecidableEq

/-- `dot_product` from bicgstab_serial.c: `sum += a[i]*b[i]` for `i < n`. -/
def dot_product (a b : List ℚ) (n : ℕ) : ℚ :=
  ((List.range n).map (fun i => a.getD i 0 * b.getD i 0)).sum

/-- `vector_copy` from bicgstab_serial.c: `dst[i] = src[i]` for `i < n`. -/
def vector_copy (src : List ℚ) (n : ℕ) : List ℚ :=
  (List.range n).map (fun i => src.getD i 0)

/-- `vector_axpy` from bicgstab_serial.c: `y[i] += a*x[i]` for `i < n`. -/
def vector_axpy (a : ℚ) (x y : List ℚ) (n : ℕ) : List ℚ :=
  (List.range n).map (fun i => y.getD i 0 + a * x.getD i 0)

/-- `vector_axpby` from bicgstab_serial.c: `z[i] = a*x[i] + b*y[i]`. -/
def vector_axpby (a : ℚ) (x : List ℚ) (b : ℚ) (y : List ℚ) (n : ℕ) : List ℚ :=
  (List.range n).map (fun i => a * x.getD i 0 + b * y.getD i 0)

/-- Square of `vector_norm` from bicgstab_serial.c (`sqrt(dot_product(x,x,n))`);
norms enter the program only through comparisons, embedded via squares. -/
def vector_normSq (x : List ℚ) (n : ℕ) : ℚ :=
  dot_product x x n

/-- `matvec_csr` from fem_matrix.c: row i of y accumulates
`values[j] * x[col_idx[j]]` for `j` in `[row_ptr[i], row_ptr[i+1])`. -/
def matvec_csr (A : CSRMatrix) (x : List ℚ) : List ℚ :=
  (List.range A.n).map (fun i =>
    ((List.range' (A.row_ptr.getD i 0) (A.row_ptr.getD (i+1) 0 - A.row_ptr.getD i 0)).map
      (fun j => A.values.getD j 0 * x.getD (A.col_idx.getD j 0) 0)).sum)

/-- The breakdown threshold `1e-30` of bicgstab_serial.c, as an exact rational. -/
def breakdownEps : ℚ := 1 / 10 ^ 30

/-- The shadow-residual initialization loop of bicgstab_serial.c:
`for i < n: r0[i] = 1.0`. -/
def r0_init (n : ℕ) : List ℚ :=
  (List.range n).map (fun _ => (1 : ℚ))

/-- Square of `bnorm` after the zero-substitution of bicgstab_serial.c:
`bnorm = vector_norm(b, n); if (bnorm == 0.0) bnorm = 1.0;`.
Over exact arithmetic `sqrt d = 0 ↔ d = 0`, and `1.0^2 = 1`. -/
def bnormSqOf (b : List ℚ) (n : ℕ) : ℚ :=
  if vector_normSq b n = 0 then 1 else vector_normSq b n

/-- Solver state that persists across loop iterations of `bicgstab_serial`:
the system (through which `x` is mutated) and the scratch vectors/scalars
`r, p, v, rho, alpha, omega`.  (`s`, `t`, `beta` are written before every read
within one iteration and so are locals of the step.) -/
structure BState where
  sys : FEMSystem
  r : List ℚ
  p : List ℚ
  v : List ℚ
  rho : ℚ
  alpha : ℚ
  omega : ℚ
deriving DecidableEq

/-- How one execution of the loop body of `bicgstab_serial` ends: one of the
four `break` sites (rho breakdown, first convergence check, second convergence
check, omega breakdown) or fall-through to the next iteration. -/
inductive StepOut where
  | rhoBreak (st : BState)
  | conv1 (st : BState)
  | conv2 (st : BState)
  | omegaBreak (st : BState)
  | next (st : BState)
deriving DecidableEq

/-- The state carried by a step outcome. -/
def StepOut.state : StepOut → BState
  | rhoBreak st => st
  | conv1 st => st
  | conv2 st => st
  | omegaBreak st => st
  | next st => st

/-- Discriminator: did the step end at the first convergence check? -/
def StepOut.isConv1 : StepOut → Bool
  | conv1 _ => true
  | _ => false

/-- Discriminator: did the step end at the second convergence check? -/
def StepOut.isConv2 : StepOut → Bool
  | conv2 _ => true
  | _ => false

/-- One execution of the `for (iter = 0; iter < max_iter; iter++)` body of
`bicgstab_serial` at loop index `k`, from state `st`.  Mirrors
bicgstab_serial.c lines 85-147 statement by statement; the two norm
comparisons are embedded by squares as explained in the file header. -/
def bicgstab_step (tol bnormSq : ℚ) (k : ℕ) (st : BState) : StepOut :=
  let n := st.sys.n
  let rho := dot_product (r0_init n) st.r n
  if |rho| < breakdownEps then
    .rhoBreak { st with rho := rho }
  else
    let p := if k = 0 then vector_copy st.r n
      else
        let beta := (rho / st.rho) * (st.alpha / st.omega)
        (List.range n).map (fun i =>
          st.r.getD i 0 + beta * (st.p.getD i 0 - st.omega * st.v.getD i 0))
    let v := matvec_csr st.sys.A p
    let alpha := rho / dot_product (r0_init n) v n
    let s := vector_axpby 1 st.r (-alpha) v n
    if 0 < tol ∧ vector_normSq s n < tol ^ 2 * bnormSq then
      .conv1 { st with
          rho := rho
          p := p
          v := v
          alpha := alpha
          sys := { st.sys with x := vector_axpy alpha p st.sys.x n } }
    else
      let t := matvec_csr st.sys.A s
      let omega := dot_product t s n / dot_product t t n
      let x1 := vector_axpy alpha p st.sys.x n
      let x2 := vector_axpy omega s x1 n
      let r := vector_axpby 1 s (-omega) t n
      let st' : BState :=
        { sys := { st.sys with x := x2 }
          r := r
          p := p
          v := v
          rho := rho
          alpha := alpha
          omega := omega }
      if 0 < tol ∧ vector_normSq r n < tol ^ 2 * bnormSq then
        .conv2 st'
      else if |omega| < breakdownEps then
        .omegaBreak st'
      else
        .next st'

/-- The iteration loop of `bicgstab_serial`: `fuel` is the number of loop
iterations still allowed (`max_iter - k`), `k` the current loop index.
Returns the final value of `iter` together with the final state, matching the
C loop's exits: a plain `break` leaves `iter = k`, the second convergence
check executes `iter++` before breaking, and running out of fuel leaves
`iter = max_iter`. -/
def bicgstab_loop (tol bnormSq : ℚ) : ℕ → ℕ → BState → ℕ × BState
  | 0, k, st => (k, st)
  | fuel + 1, k, st =>
    match bicgstab_step tol bnormSq k st with
    | .rhoBreak st' => (k, st')
    | .conv1 st' => (k, st')
    | .conv2 st' => (k + 1, st')
    | .omegaBreak st' => (k, st')
    | .next st' => bicgstab_loop tol bnormSq fuel (k + 1) st'

/-- The post-loop return of bicgstab_serial.c lines 161-166:
`if (iter >= max_iter) return -1; return iter;` (the system is returned so the
effect on `x` — and the non-effect on `A` and `b` — is observable). -/
def bicgstab_finish (max_iter : ℕ) (res : ℕ × BState) : Int × FEMSystem :=
  (if max_iter ≤ res.1 then -1 else (res.1 : Int), res.2.sys)

/-- Initialization of `bicgstab_serial` (lines 54-82): `r ← b`, `r0 ← 1⃗`
(kept as the constant `r0_init`), `p ← r`, `v` allocated (never read before
its first write; modelled as zeros), `rho = alpha = omega = 1`. -/
def initState (sys : FEMSystem) : BState :=
  let r := vector_copy sys.b sys.n
  { sys := sys, r := r, p := vector_copy r sys.n,
    v := List.replicate sys.n 0, rho := 1, alpha := 1, omega := 1 }

/-- `bicgstab_serial` from bicgstab_serial.c (timing elided): returns the C
return value and the system after the call. -/
def bicgstab_serial (sys : FEMSystem) (max_iter : ℕ) (tol : ℚ) : Int × FEMSystem :=
  bicgstab_finish max_iter
    (bicgstab_loop tol (bnormSqOf sys.b sys.n) max_iter 0 (initState sys))

/-- `get_node_number` from fem_matrix.c: `i * nx + j`. -/
def get_node_number (i j nx : ℕ) : ℕ :=
  i * nx + j

/-- `get_boundary_type` from fem_matrix.c:
0 = interior, 1 = bottom (j = 0), 2 = right (i = ny-1), 3 = top (j = nx-1),
4 = left (i = 0), tested in that order. -/
def get_boundary_type (i j nx ny : ℕ) : ℕ :=
  if j = 0 then 1
  else if i = ny - 1 then 2
  else if j = nx - 1 then 3
  else if i = 0 then 4
  else 0

/-- Grid spacing `hx = 1.0 / (nx - 1)` from fem_matrix.c. -/
def gridHx (nx : ℕ) : ℚ :=
  1 / ((nx : ℚ) - 1)

/-- Grid spacing `hy = 1.0 / (ny - 1)` from fem_matrix.c. -/
def gridHy (ny : ℕ) : ℚ :=
  1 / ((ny : ℚ) - 1)

/-- Diagonal stencil entry `ke = (hy/hx + hx/hy) / 3.0` from fem_matrix.c. -/
def stencilKe (nx ny : ℕ) : ℚ :=
  (gridHy ny / gridHx nx + gridHx nx / gridHy ny) / 3

/-- North-south stencil entry `kn = -(hy/hx) / 6.0` from fem_matrix.c. -/
def stencilKn (nx ny : ℕ) : ℚ :=
  -(gridHy ny / gridHx nx) / 6

/-- East-west stencil entry `kw = -(hx/hy) / 6.0` from fem_matrix.c. -/
def stencilKw (nx ny : ℕ) : ℚ :=
  -(gridHx nx / gridHy ny) / 6

/-- The (value, column) pairs appended for node `(i, j)` by the assembly loop
body of `create_fem_system` (fem_matrix.c lines 67-121): a lone unit diagonal
for a boundary node, else west / south / diagonal / north / east entries with
the same guards as the source. -/
def nodeEntries (nx ny i j : ℕ) : List (ℚ × ℕ) :=
  if 0 < get_boundary_type i j nx ny then
    [((1 : ℚ), get_node_number i j nx)]
  else
    (if 0 < j then [(stencilKw nx ny, get_node_number i (j - 1) nx)] else []) ++
    (if 0 < i then [(stencilKn nx ny, get_node_number (i - 1) j nx)] else []) ++
    [(stencilKe nx ny, get_node_number i j nx)] ++
    (if i < ny - 1 then [(stencilKn nx ny, get_node_number (i + 1) j nx)] else []) ++
    (if j < nx - 1 then [(stencilKw nx ny, get_node_number i (j + 1) nx)] else [])

/-- The entry list for node number `m`; the assembly loops enumerate
`node = i*nx + j` in increasing order, so node `m` sits at grid position
`(m / nx, m % nx)`. -/
def nodeEntriesAt (nx ny m : ℕ) : List (ℚ × ℕ) :=
  nodeEntries nx ny (m / nx) (m % nx)

/-- All (value, column) pairs emitted by the double assembly loop
`for i < ny: for j < nx:` of `create_fem_system`, in emission order. -/
def femEntries (nx ny : ℕ) : List (ℚ × ℕ) :=
  (List.range ny).flatMap (fun i => (List.range nx).flatMap (fun j => nodeEntries nx ny i j))

/-- The pairs emitted for the first `m` nodes; `temp_row[m]` in fem_matrix.c is
exactly the number of entries emitted while processing nodes `0 .. m-1`. -/
def prefixEntries (nx ny m : ℕ) : List (ℚ × ℕ) :=
  (List.range m).flatMap (nodeEntriesAt nx ny)

/-- `b[node]` as assigned by `create_fem_system`: 1 on the top boundary
(`boundary == 3`), 0 on other boundaries and on interior nodes. -/
def bValue (nx ny i j : ℕ) : ℚ :=
  if get_boundary_type i j nx ny = 3 then 1 else 0

/-- `create_fem_system` from fem_matrix.c: n = nx*ny nodes, CSR arrays built
from the emission order of the double loop, `row_ptr[m]` = number of entries
of nodes before `m`, `b` assigned per node, `x` zero-initialized. -/
def create_fem_system (nx ny : ℕ) : FEMSystem :=
  let n := nx * ny
  let entries := femEntries nx ny
  { A :=
      { n := n
        nnz := entries.length
        values := entries.map Prod.fst
        col_idx := entries.map Prod.snd
        row_ptr := (List.range (n + 1)).map (fun m => (prefixEntries nx ny m).length) }
    b := (List.range ny).flatMap (fun i => (List.range nx).map (fun j => bValue nx ny i j))
    x := List.replicate n 0
    n := n }

/-- One static-schedule slice of a parallel reduction: the partial sum of
`a[i]*b[i]` over `i` in `[start, start + len)`. -/
def dotSlice (a b : List ℚ) (start len : ℕ) : ℚ :=
  ((List.range' start len).map (fun i => a.getD i 0 * b.getD i 0)).sum

/-- Combination of the per-worker partial sums of an OpenMP
`reduction(+:sum)` over contiguous chunks of the given sizes. -/
def chunkedDot (a b : List ℚ) : ℕ → List ℕ → ℚ
  | _, [] => 0
  | start, c :: cs => dotSlice a b start c + chunkedDot a b (start + c) cs

/-- The contiguous static partition of `[0, n)` into `T` chunks used to model
OpenMP's worker decomposition: chunk `t` has size `n*(t+1)/T - n*t/T`. -/
def ompChunks (n T : ℕ) : List ℕ :=
  (List.range T).map (fun t => n * (t + 1) / T - n * t / T)

/-- `dot_product_parallel` from bicgstab_parallel.c: each of the `T` workers
sums its chunk, and the reduction combines the partial sums.  Over exact
arithmetic the combination order is irrelevant, so one order is fixed. -/
def dot_product_parallel (a b : List ℚ) (n T : ℕ) : ℚ :=
  chunkedDot a b 0 (ompChunks n T)

/-- `vector_copy_parallel` from bicgstab_parallel.c: per-index independent
writes, identical element formula to the serial kernel. -/
def vector_copy_parallel (src : List ℚ) (n : ℕ) : List ℚ :=
  (List.range n).map (fun i => src.getD i 0)

/-- `vector_axpy_parallel` from bicgstab_parallel.c. -/
def vector_axpy_parallel (a : ℚ) (x y : List ℚ) (n : ℕ) : List ℚ :=
  (List.range n).map (fun i => y.getD i 0 + a * x.getD i 0)

/-- `vector_axpby_parallel` from bicgstab_parallel.c. -/
def vector_axpby_parallel (a : ℚ) (x : List ℚ) (b : ℚ) (y : List ℚ) (n : ℕ) : List ℚ :=
  (List.range n).map (fun i => a * x.getD i 0 + b * y.getD i 0)

/-- Square of `vector_norm_parallel` (`sqrt(dot_product_parallel(x,x,n))`). -/
def vector_normSq_parallel (x : List ℚ) (n T : ℕ) : ℚ :=
  dot_product_parallel x x n T

/-- `matvec_csr_parallel` from bicgstab_parallel.c: rows are independent; each
row accumulates a local sum and stores it, the same per-row formula as the
serial `matvec_csr`. -/
def matvec_csr_parallel (A : CSRMatrix) (x : List ℚ) : List ℚ :=
  (List.range A.n).map (fun i =>
    ((List.range' (A.row_ptr.getD i 0) (A.row_ptr.getD (i+1) 0 - A.row_ptr.getD i 0)).map
      (fun j => A.values.getD j 0 * x.getD (A.col_idx.getD j 0) 0)).sum)

/-- The `r0[i] = 1.0` parallel-for of bicgstab_parallel.c. -/
def r0_init_parallel (n : ℕ) : List ℚ :=
  (List.range n).map (fun _ => (1 : ℚ))

/-- Square of the substituted `bnorm` of `bicgstab_parallel`. -/
def bnormSqOf_parallel (b : List ℚ) (n T : ℕ) : ℚ :=
  if vector_normSq_parallel b n T = 0 then 1 else vector_normSq_parallel b n T

/-- One loop-body execution of `bicgstab_parallel` (lines 274-336): the same
statement sequence as `bicgstab_step` with every kernel replaced by its
parallel form; `T` is the ambient worker count set by
`omp_set_num_threads`. -/
def bicgstab_step_parallel (tol bnormSq : ℚ) (T k : ℕ) (st : BState) : StepOut :=
  let n := st.sys.n
  let rho := dot_product_parallel (r0_init_parallel n) st.r n T
  if |rho| < breakdownEps then
    .rhoBreak { st with rho := rho }
  else
    let p := if k = 0 then vector_copy_parallel st.r n
      else
        let beta := (rho / st.rho) * (st.alpha / st.omega)
        (List.range n).map (fun i =>
          st.r.getD i 0 + beta * (st.p.getD i 0 - st.omega * st.v.getD i 0))
    let v := matvec_csr_parallel st.sys.A p
    let alpha := rho / dot_product_parallel (r0_init_parallel n) v n T
    let s := vector_axpby_parallel 1 st.r (-alpha) v n
    if 0 < tol ∧ vector_normSq_parallel s n T < tol ^ 2 * bnormSq then
      .conv1 { st with
          rho := rho
          p := p
          v := v
          alpha := alpha
          sys := { st.sys with x := vector_axpy_parallel alpha p st.sys.x n } }
    else
      let t := matvec_csr_parallel st.sys.A s
      let omega := dot_product_parallel t s n T / dot_product_parallel t t n T
      let x1 := vector_axpy_parallel alpha p st.sys.x n
      let x2 := vector_axpy_parallel omega s x1 n
      let r := vector_axpby_parallel 1 s (-omega) t n
      let st' : BState :=
        { sys := { st.sys with x := x2 }
          r := r
          p := p
          v := v
          rho := rho
          alpha := alpha
          omega := omega }
      if 0 < tol ∧ vector_normSq_parallel r n T < tol ^ 2 * bnormSq then
        .conv2 st'
      else if |omega| < breakdownEps then
        .omegaBreak st'
      else
        .next st'

/-- The iteration loop of `bicgstab_parallel`, with the same exit structure as
the serial loop. -/
def bicgstab_loop_parallel (tol bnormSq : ℚ) (T : ℕ) : ℕ → ℕ → BState → ℕ × BState
  | 0, k, st => (k, st)
  | fuel + 1, k, st =>
    match bicgstab_step_parallel tol bnormSq T k st with
    | .rhoBreak st' => (k, st')
    | .conv1 st' => (k, st')
    | .conv2 st' => (k + 1, st')
    | .omegaBreak st' => (k, st')
    | .next st' => bicgstab_loop_parallel tol bnormSq T fuel (k + 1) st'

/-- Initialization of `bicgstab_parallel` (lines 243-271). -/
def initState_parallel (sys : FEMSystem) : BState :=
  let r := vector_copy_parallel sys.b sys.n
  { sys := sys, r := r, p := vector_copy_parallel r sys.n,
    v := List.replicate sys.n 0, rho := 1, alpha := 1, omega := 1 }

/-- `bicgstab_parallel` from bicgstab_parallel.c (timing elided):
`num_threads = T` workers; returns the C return value and the final system. -/
def bicgstab_parallel (sys : FEMSystem) (max_iter : ℕ) (tol : ℚ) (T : ℕ) :
    Int × FEMSystem :=
  bicgstab_finish max_iter
    (bicgstab_loop_parallel tol (bnormSqOf_parallel sys.b sys.n T) T max_iter 0
      (initState_parallel sys))

/-! ### Generic helper lemmas about the embedded kernels -/

lemma getD_map_range {α : Type} (f : ℕ → α) (d : α) {n i : ℕ} (h : i < n) :
    ((List.range n).map f).getD i d = f i := by
  rw [List.getD_eq_getElem?_getD, List.getElem?_map, List.getElem?_range h]
  rfl

lemma map_getD_range_self (l : List ℚ) :
    (List.range l.length).map (fun i => l.getD i 0) = l := by
  apply List.ext_getElem
  · simp
  · intro i h1 h2
    simp only [List.getElem_map, List.getElem_range]
    exact List.getD_eq_getElem l 0 h2

lemma vector_copy_eq_self {l : List ℚ} {n : ℕ} (h : l.length = n) :
    vector_copy l n = l := by
  subst h
  exact map_getD_range_self l

lemma getD_replicate_zero (n i : ℕ) : (List.replicate n (0 : ℚ)).getD i 0 = 0 := by
  rcases Nat.lt_or_ge i n with h | h
  · have h' : i < (List.replicate n (0 : ℚ)).length := by simpa using h
    rw [List.getD_eq_getElem _ _ h', List.getElem_replicate]
  · exact List.getD_eq_default _ _ (by simpa using h)

lemma dot_product_replicate_zero_right (a : List ℚ) (n m : ℕ) :
    dot_product a (List.replicate m 0) n = 0 := by
  apply List.sum_eq_zero
  intro q hq
  rcases List.mem_map.mp hq with ⟨i, _, rfl⟩
  rw [getD_replicate_zero]
  exact mul_zero _

lemma dot_product_ones {n : ℕ} {r : List ℚ} (h : r.length = n) :
    dot_product (r0_init n) r n = r.sum := by
  subst h
  unfold dot_product r0_init
  have hmap : (List.range r.length).map
      (fun i => ((List.range r.length).map (fun _ => (1 : ℚ))).getD i 0 * r.getD i 0)
      = (List.range r.length).map (fun i => r.getD i 0) := by
    apply List.map_congr_left
    intro i hi
    rw [getD_map_range _ _ (List.mem_range.mp hi), one_mul]
  rw [hmap, map_getD_range_self]

/-! ### The parallel kernels agree with the serial kernels (exact arithmetic) -/

lemma dotSlice_append (a b : List ℚ) (s c d : ℕ) :
    dotSlice a b s (c + d) = dotSlice a b s c + dotSlice a b (s + c) d := by
  unfold dotSlice
  rw [add_comm c d, ← List.range'_append s c d 1, List.map_append, List.sum_append]
  norm_num

lemma chunkedDot_eq_dotSlice (a b : List ℚ) (cs : List ℕ) (s : ℕ) :
    chunkedDot a b s cs = dotSlice a b s cs.sum := by
  induction cs generalizing s with
  | nil => simp [chunkedDot, dotSlice]
  | cons c cs ih =>
    rw [List.sum_cons, chunkedDot, ih, dotSlice_append]

lemma sum_telescope_div (n T : ℕ) (K : ℕ) :
    ((List.range K).map (fun t => n * (t + 1) / T - n * t / T)).sum = n * K / T := by
  induction K with
  | zero => simp
  | succ K ih =>
    rw [List.range_succ, List.map_append, List.sum_append, ih]
    have h1 : n * K / T ≤ n * (K + 1) / T :=
      Nat.div_le_div_right (Nat.mul_le_mul_left n (Nat.le_succ K))
    simp only [List.map_cons, List.map_nil, List.sum_cons, List.sum_nil]
    omega

lemma ompChunks_sum {T : ℕ} (n : ℕ) (hT : 0 < T) : (ompChunks n T).sum = n := by
  unfold ompChunks
  rw [sum_telescope_div, Nat.mul_div_cancel n hT]

lemma dot_product_parallel_eq {T : ℕ} (a b : List ℚ) (n : ℕ) (hT : 0 < T) :
    dot_product_parallel a b n T = dot_product a b n := by
  unfold dot_product_parallel dot_product
  rw [chunkedDot_eq_dotSlice, ompChunks_sum n hT]
  unfold dotSlice
  rw [← List.range_eq_range']

lemma vector_copy_parallel_eq (src : List ℚ) (n : ℕ) :
    vector_copy_parallel src n = vector_copy src n := rfl

lemma vector_axpy_parallel_eq (a : ℚ) (x y : List ℚ) (n : ℕ) :
    vector_axpy_parallel a x y n = vector_axpy a x y n := rfl

lemma vector_axpby_parallel_eq (a : ℚ) (x : List ℚ) (b : ℚ) (y : List ℚ) (n : ℕ) :
    vector_axpby_parallel a x b y n = vector_axpby a x b y n := rfl

lemma matvec_csr_parallel_eq (A : CSRMatrix) (x : List ℚ) :
    matvec_csr_parallel A x = matvec_csr A x := rfl

lemma r0_init_parallel_eq (n : ℕ) : r0_init_parallel n = r0_init n := rfl

lemma vector_normSq_parallel_eq {T : ℕ} (x : List ℚ) (n : ℕ) (hT : 0 < T) :
    vector_normSq_parallel x n T = vector_normSq x n :=
  dot_product_parallel_eq x x n hT

lemma bnormSqOf_parallel_eq {T : ℕ} (b : List ℚ) (n : ℕ) (hT : 0 < T) :
    bnormSqOf_parallel b n T = bnormSqOf b n := by
  unfold bnormSqOf_parallel bnormSqOf
  rw [vector_normSq_parallel_eq b n hT]

lemma initState_parallel_eq (sys : FEMSystem) : initState_parallel sys = initState sys := rfl

set_option maxHeartbeats 2000000 in
lemma bicgstab_step_parallel_eq {T : ℕ} (tol bnormSq : ℚ) (k : ℕ) (st : BState)
    (hT : 0 < T) :
    bicgstab_step_parallel tol bnormSq T k st = bicgstab_step tol bnormSq k st := by
  unfold bicgstab_step_parallel bicgstab_step
  simp only [dot_product_parallel_eq _ _ _ hT, vector_copy_parallel_eq,
    vector_axpy_parallel_eq, vector_axpby_parallel_eq, matvec_csr_parallel_eq,
    r0_init_parallel_eq, vector_normSq_parallel_eq _ _ hT]

set_option maxHeartbeats 2000000 in
lemma bicgstab_loop_parallel_eq {T : ℕ} (tol bnormSq : ℚ) (hT : 0 < T) :
    ∀ (fuel k : ℕ) (st : BState),
      bicgstab_loop_parallel tol bnormSq T fuel k st = bicgstab_loop tol bnormSq fuel k st := by
  intro fuel
  induction fuel with
  | zero => intro k st; rfl
  | succ fuel ih =>
    intro k st
    rw [bicgstab_loop_parallel, bicgstab_loop, bicgstab_step_parallel_eq tol bnormSq k st hT]
    cases bicgstab_step tol bnormSq k st with
    | rhoBreak st' => rfl
    | conv1 st' => rfl
    | conv2 st' => rfl
    | omegaBreak st' => rfl
    | next st' => exact ih (k + 1) st'

/-! ### Frame lemmas: the solvers never write A, b or n -/

set_option maxHeartbeats 2000000 in
lemma bicgstab_step_frame (tol bnormSq : ℚ) (k : ℕ) (st : BState) :
    (bicgstab_step tol bnormSq k st).state.sys.A = st.sys.A ∧
    (bicgstab_step tol bnormSq k st).state.sys.b = st.sys.b ∧
    (bicgstab_step tol bnormSq k st).state.sys.n = st.sys.n := by
  unfold bicgstab_step
  dsimp only
  repeat' split
  all_goals exact ⟨rfl, rfl, rfl⟩

lemma bicgstab_loop_frame (tol bnormSq : ℚ) :
    ∀ (fuel k : ℕ) (st : BState),
      (bicgstab_loop tol bnormSq fuel k st).2.sys.A = st.sys.A ∧
      (bicgstab_loop tol bnormSq fuel k st).2.sys.b = st.sys.b ∧
      (bicgstab_loop tol bnormSq fuel k st).2.sys.n = st.sys.n := by
  intro fuel
  induction fuel with
  | zero => exact fun k st => ⟨rfl, rfl, rfl⟩
  | succ fuel ih =>
    intro k st
    have hstep := bicgstab_step_frame tol bnormSq k st
    rw [bicgstab_loop]
    cases h : bicgstab_step tol bnormSq k st with
    | rhoBreak st' => rw [h] at hstep; exact hstep
    | conv1 st' => rw [h] at hstep; exact hstep
    | conv2 st' => rw [h] at hstep; exact hstep
    | omegaBreak st' => rw [h] at hstep; exact hstep
    | next st' =>
      rw [h] at hstep
      obtain ⟨hA, hb, hn⟩ := hstep
      obtain ⟨hA', hb', hn'⟩ := ih (k + 1) st'
      exact ⟨hA'.trans hA, hb'.trans hb, hn'.trans hn⟩

set_option maxHeartbeats 2000000 in
lemma bicgstab_step_parallel_frame (tol bnormSq : ℚ) (T k : ℕ) (st : BState) :
    (bicgstab_step_parallel tol bnormSq T k st).state.sys.A = st.sys.A ∧
    (bicgstab_step_parallel tol bnormSq T k st).state.sys.b = st.sys.b ∧
    (bicgstab_step_parallel tol bnormSq T k st).state.sys.n = st.sys.n := by
  unfold bicgstab_step_parallel
  dsimp only
  repeat' split
  all_goals exact ⟨rfl, rfl, rfl⟩

lemma bicgstab_loop_parallel_frame (tol bnormSq : ℚ) (T : ℕ) :
    ∀ (fuel k : ℕ) (st : BState),
      (bicgstab_loop_parallel tol bnormSq T fuel k st).2.sys.A = st.sys.A ∧
      (bicgstab_loop_parallel tol bnormSq T fuel k st).2.sys.b = st.sys.b ∧
      (bicgstab_loop_parallel tol bnormSq T fuel k st).2.sys.n = st.sys.n := by
  intro fuel
  induction fuel with
  | zero => exact fun k st => ⟨rfl, rfl, rfl⟩
  | succ fuel ih =>
    intro k st
    have hstep := bicgstab_step_parallel_frame tol bnormSq T k st
    rw [bicgstab_loop_parallel]
    cases h : bicgstab_step_parallel tol bnormSq T k st with
    | rhoBreak st' => rw [h] at hstep; exact hstep
    | conv1 st' => rw [h] at hstep; exact hstep
    | conv2 st' => rw [h] at hstep; exact hstep
    | omegaBreak st' => rw [h] at hstep; exact hstep
    | next st' =>
      rw [h] at hstep
      obtain ⟨hA, hb, hn⟩ := hstep
      obtain ⟨hA', hb', hn'⟩ := ih (k + 1) st'
      exact ⟨hA'.trans hA, hb'.trans hb, hn'.trans hn⟩

/-! ### CSR assembly lemmas for `create_fem_system` -/

lemma getD_range {m i : ℕ} (h : i < m) : (List.range m).getD i 0 = i := by
  rw [List.getD_eq_getElem?_getD, List.getElem?_range h]
  rfl

lemma create_A_n (nx ny : ℕ) : (create_fem_system nx ny).A.n = nx * ny := rfl

lemma create_A_nnz (nx ny : ℕ) :
    (create_fem_system nx ny).A.nnz = (femEntries nx ny).length := rfl

lemma create_A_values (nx ny : ℕ) :
    (create_fem_system nx ny).A.values = (femEntries nx ny).map Prod.fst := rfl

lemma create_A_col_idx (nx ny : ℕ) :
    (create_fem_system nx ny).A.col_idx = (femEntries nx ny).map Prod.snd := rfl

lemma create_A_row_ptr (nx ny : ℕ) :
    (create_fem_system nx ny).A.row_ptr
      = (List.range (nx * ny + 1)).map (fun m => (prefixEntries nx ny m).length) := rfl

lemma prefixEntries_succ (nx ny m : ℕ) :
    prefixEntries nx ny (m + 1) = prefixEntries nx ny m ++ nodeEntriesAt nx ny m := by
  unfold prefixEntries
  rw [List.range_succ, List.flatMap_append]
  simp

lemma prefixEntries_add (nx ny a c : ℕ) :
    prefixEntries nx ny (a + c)
      = prefixEntries nx ny a ++ (List.range' a c).flatMap (nodeEntriesAt nx ny) := by
  unfold prefixEntries
  rw [List.range_add, List.flatMap_append, List.range'_eq_map_range, List.flatMap_map]

lemma flatMap_range_mul {α : Type} (b : ℕ) (f : ℕ → List α) :
    ∀ a : ℕ,
      (List.range a).flatMap (fun i => (List.range b).flatMap (fun j => f (i * b + j)))
        = (List.range (a * b)).flatMap f := by
  intro a
  induction a with
  | zero => simp
  | succ a ih =>
    rw [List.range_succ, List.flatMap_append, ih, Nat.succ_mul, List.range_add,
      List.flatMap_append, List.flatMap_map]
    congr 1
    rw [List.flatMap_cons, List.flatMap_nil, List.append_nil]

lemma nodeEntriesAt_mul_add (nx ny i j : ℕ) (hj : j < nx) :
    nodeEntriesAt nx ny (i * nx + j) = nodeEntries nx ny i j := by
  have hnx : 0 < nx := lt_of_le_of_lt (Nat.zero_le j) hj
  unfold nodeEntriesAt
  have hdiv : (i * nx + j) / nx = i := by
    rw [mul_comm i nx, Nat.mul_add_div hnx, Nat.div_eq_of_lt hj, Nat.add_zero]
  have hmod : (i * nx + j) % nx = j := by
    rw [mul_comm i nx, Nat.mul_add_mod, Nat.mod_eq_of_lt hj]
  rw [hdiv, hmod]

lemma femEntries_eq_prefixEntries (nx ny : ℕ) :
    femEntries nx ny = prefixEntries nx ny (ny * nx) := by
  unfold femEntries prefixEntries
  rw [← flatMap_range_mul nx (nodeEntriesAt nx ny) ny]
  apply List.flatMap_congr
  intro i _
  apply List.flatMap_congr
  intro j hj
  rw [nodeEntriesAt_mul_add nx ny i j (List.mem_range.mp hj)]

lemma get_node_number_lt {nx ny i j : ℕ} (hi : i < ny) (hj : j < nx) :
    get_node_number i j nx < nx * ny := by
  unfold get_node_number
  calc i * nx + j < i * nx + nx := by omega
  _ = (i + 1) * nx := by ring
  _ ≤ ny * nx := Nat.mul_le_mul_right nx hi
  _ = nx * ny := Nat.mul_comm ny nx

lemma mem_nodeEntries_snd_lt {nx ny i j : ℕ} (hi : i < ny) (hj : j < nx) :
    ∀ pr ∈ nodeEntries nx ny i j, pr.2 < nx * ny := by
  intro pr hpr
  unfold nodeEntries at hpr
  split at hpr
  · rw [List.mem_singleton.mp hpr]
    exact get_node_number_lt hi hj
  · rcases List.mem_append.mp hpr with h4 | he
    · rcases List.mem_append.mp h4 with h3 | hn
      · rcases List.mem_append.mp h3 with h2 | hd
        · rcases List.mem_append.mp h2 with hw | hs
          · split at hw
            · rw [List.mem_singleton.mp hw]
              exact get_node_number_lt hi (by omega)
            · simp at hw
          · split at hs
            · rw [List.mem_singleton.mp hs]
              exact get_node_number_lt (by omega) hj
            · simp at hs
        · rw [List.mem_singleton.mp hd]
          exact get_node_number_lt hi hj
      · split at hn
        · rw [List.mem_singleton.mp hn]
          next hguard _ =>
            exact get_node_number_lt (by omega) hj
        · simp at hn
    · split at he
      · rw [List.mem_singleton.mp he]
        next hguard _ =>
          exact get_node_number_lt hi (by omega)
      · simp at he

lemma femEntries_zip (nx ny : ℕ) :
    ((create_fem_system nx ny).A.values).zip ((create_fem_system nx ny).A.col_idx)
      = femEntries nx ny := by
  rw [create_A_values, create_A_col_idx, List.zip_map']
  simp

lemma row_ptr_getD_eq (nx ny : ℕ) {m : ℕ} (h : m < nx * ny + 1) :
    (create_fem_system nx ny).A.row_ptr.getD m 0 = (prefixEntries nx ny m).length := by
  rw [create_A_row_ptr]
  exact getD_map_range _ _ h

lemma prefixEntries_length_le (nx ny m : ℕ) :
    (prefixEntries nx ny m).length ≤ (prefixEntries nx ny (m + 1)).length := by
  rw [prefixEntries_succ, List.length_append]
  omega

lemma femEntries_slice (nx ny : ℕ) {i : ℕ} (h : i < nx * ny) :
    ((femEntries nx ny).drop ((prefixEntries nx ny i).length)).take
        ((prefixEntries nx ny (i + 1)).length - (prefixEntries nx ny i).length)
      = nodeEntriesAt nx ny i := by
  have hdecomp : femEntries nx ny
      = prefixEntries nx ny i ++ (nodeEntriesAt nx ny i
          ++ (List.range' (i + 1) (nx * ny - (i + 1))).flatMap (nodeEntriesAt nx ny)) := by
    rw [femEntries_eq_prefixEntries, Nat.mul_comm ny nx,
      show nx * ny = (i + 1) + (nx * ny - (i + 1)) by omega, prefixEntries_add,
      prefixEntries_succ, List.append_assoc, Nat.add_sub_cancel_left]
  have hlen : (prefixEntries nx ny (i + 1)).length - (prefixEntries nx ny i).length
      = (nodeEntriesAt nx ny i).length := by
    rw [prefixEntries_succ, List.length_append]
    omega
  rw [hdecomp, hlen, List.drop_left, List.take_left]

/-! ### The identity matrix in CSR form -/

/-- The n-by-n identity matrix in CSR form: one non-zero per row, on the
diagonal, equal to 1. -/
def identityCSR (n : ℕ) : CSRMatrix :=
  { n := n
    nnz := n
    values := List.replicate n 1
    col_idx := List.range n
    row_ptr := List.range (n + 1) }

lemma getD_replicate_one {n i : ℕ} (h : i < n) :
    (List.replicate n (1 : ℚ)).getD i 0 = 1 := by
  have h' : i < (List.replicate n (1 : ℚ)).length := by simpa using h
  rw [List.getD_eq_getElem _ _ h', List.getElem_replicate]

lemma matvec_identityCSR {n : ℕ} {x : List ℚ} (h : x.length = n) :
    matvec_csr (identityCSR n) x = x := by
  subst h
  unfold matvec_csr identityCSR
  dsimp only
  have hcong : ∀ i ∈ List.range x.length,
      ((List.range' ((List.range (x.length + 1)).getD i 0)
          ((List.range (x.length + 1)).getD (i + 1) 0
            - (List.range (x.length + 1)).getD i 0)).map
        (fun j => (List.replicate x.length (1 : ℚ)).getD j 0
          * x.getD ((List.range x.length).getD j 0) 0)).sum
      = x.getD i 0 := by
    intro i hi
    have hi' : i < x.length := List.mem_range.mp hi
    rw [getD_range (by omega), getD_range (by omega),
      show i + 1 - i = 1 by omega, List.range'_one]
    simp only [List.map_cons, List.map_nil, List.sum_cons, List.sum_nil]
    rw [getD_replicate_one hi', getD_range hi', one_mul, add_zero]
  rw [List.map_congr_left hcong, map_getD_range_self]

lemma matvec_csr_length (A : CSRMatrix) (x : List ℚ) :
    (matvec_csr A x).length = A.n := by
  unfold matvec_csr
  rw [List.length_map, List.length_range]

/-! ### Exit-path lemmas for the iteration loop -/

lemma rho_breakdown_step (tol bnormSq : ℚ) (k : ℕ) (st : BState)
    (hrho : |dot_product (r0_init st.sys.n) st.r st.sys.n| < breakdownEps) :
    bicgstab_step tol bnormSq k st
      = .rhoBreak { st with rho := dot_product (r0_init st.sys.n) st.r st.sys.n } := by
  unfold bicgstab_step
  dsimp only
  rw [if_pos hrho]

lemma rho_breakdown_loop (tol bnormSq : ℚ) (max_iter k : ℕ) (st : BState)
    (hk : k < max_iter)
    (hrho : |dot_product (r0_init st.sys.n) st.r st.sys.n| < breakdownEps) :
    bicgstab_loop tol bnormSq (max_iter - k) k st
      = (k, { st with rho := dot_product (r0_init st.sys.n) st.r st.sys.n }) := by
  obtain ⟨fuel, hfuel⟩ : ∃ fuel, max_iter - k = fuel + 1 := ⟨max_iter - k - 1, by omega⟩
  rw [hfuel, bicgstab_loop, rho_breakdown_step tol bnormSq k st hrho]

set_option maxHeartbeats 2000000 in
lemma conv1_state_fields {tol bnormSq : ℚ} {k : ℕ} {st st' : BState}
    (h : bicgstab_step tol bnormSq k st = .conv1 st') :
    st'.sys.x = vector_axpy st'.alpha st'.p st.sys.x st.sys.n ∧ st'.r = st.r := by
  unfold bicgstab_step at h
  dsimp only at h
  repeat' split at h
  all_goals
    first
      | exact StepOut.noConfusion h
      | (injection h with h'
         subst h'
         exact ⟨rfl, rfl⟩)

lemma conv1_loop (tol bnormSq : ℚ) (max_iter k : ℕ) (st st' : BState)
    (hk : k < max_iter)
    (hstep : bicgstab_step tol bnormSq k st = .conv1 st') :
    bicgstab_loop tol bnormSq (max_iter - k) k st = (k, st') := by
  obtain ⟨fuel, hfuel⟩ : ∃ fuel, max_iter - k = fuel + 1 := ⟨max_iter - k - 1, by omega⟩
  rw [hfuel, bicgstab_loop, hstep]

lemma vector_copy_replicate_zero (m n : ℕ) :
    vector_copy (List.replicate m (0 : ℚ)) n = List.replicate n 0 := by
  unfold vector_copy
  calc (List.range n).map (fun i => (List.replicate m (0 : ℚ)).getD i 0)
      = (List.range n).map (fun _ => (0 : ℚ)) := by
        apply List.map_congr_left
        intro i _
        exact getD_replicate_zero m i
  _ = List.replicate n 0 := by
        rw [List.map_const', List.length_range]

lemma r0_init_eq_replicate (n : ℕ) : r0_init n = List.replicate n 1 := by
  unfold r0_init
  rw [List.map_const', List.length_range]

/-! ### Concrete systems used as test inputs -/

/-- A 1-by-1 identity system with right-hand side 1. -/
def exampleSystemA : FEMSystem :=
  { A := { n := 1, nnz := 1, values := [1], col_idx := [0], row_ptr := [0, 1] }
    b := [1], x := [0], n := 1 }

/-- A 2-by-2 diagonal system `diag(2, 1)` with right-hand side `(1, 1)`.
With `tol = 1/5` the first convergence check fails at loop index 0 and the
second passes there. -/
def exampleSystemB : FEMSystem :=
  { A := { n := 2, nnz := 2, values := [2, 1], col_idx := [0, 1], row_ptr := [0, 1, 2] }
    b := [1, 1], x := [0, 0], n := 2 }

/-- A system with the given matrix, a zero right-hand side and pre-zeroed x. -/
def zeroRhsSystem (A : CSRMatrix) (n : ℕ) : FEMSystem :=
  { A := A, b := List.replicate n 0, x := List.replicate n 0, n := n }

/-! ### Claim C1 -/

/-- Claim C1 counterexample: on the 1-by-1 identity system with b = (1) and
tol = 1/2, the first convergence check passes at loop index k = 0 (the step
outcome is `conv1`) and the solver updates x to x + alpha·p = (1); but its
result is 0, the loop index k, not k + 1 as the claim states. -/
theorem claim_C1_counterexample :
    (bicgstab_step (1/2) (bnormSqOf exampleSystemA.b exampleSystemA.n) 0
        (initState exampleSystemA)).isConv1 = true ∧
    bicgstab_serial exampleSystemA 10 (1/2) = (0, { exampleSystemA with x := [1] }) ∧
    (bicgstab_serial exampleSystemA 10 (1/2)).1 ≠ 0 + 1 := by
  with_unfolding_all decide

/-- Claim C1 (amended): whenever the first convergence check passes at loop
index k < max_iter (step outcome `conv1 st'`), the loop terminates at once,
x has been updated by x ← x + alpha·p, and the solver returns the loop index
k itself, not k + 1 (k + 1 appears only in the printed message). -/
theorem claim_C1_amended (tol bnormSq : ℚ) (max_iter k : ℕ) (st st' : BState)
    (hk : k < max_iter)
    (hstep : bicgstab_step tol bnormSq k st = .conv1 st') :
    bicgstab_loop tol bnormSq (max_iter - k) k st = (k, st') ∧
    st'.sys.x = vector_axpy st'.alpha st'.p st.sys.x st.sys.n ∧
    bicgstab_finish max_iter (bicgstab_loop tol bnormSq (max_iter - k) k st)
      = ((k : Int), st'.sys) := by
  have h1 := conv1_loop tol bnormSq max_iter k st st' hk hstep
  refine ⟨h1, (conv1_state_fields hstep).1, ?_⟩
  rw [h1]
  simp [bicgstab_finish, Nat.not_le.mpr hk]

/-- The state produced by the first convergence check at loop index 0 on
`exampleSystemA` with tol = 1/2. -/
def conv1StateA : BState :=
  { sys := { A := exampleSystemA.A, b := [1], x := [1], n := 1 }
    r := [1], p := [1], v := [1], rho := 1, alpha := 1, omega := 1 }

/-- Witness for the amended claim C1 at the concrete system `exampleSystemA`,
max_iter = 10, tol = 1/2, loop index 0. -/
theorem claim_C1_amended_witness :
    bicgstab_loop (1/2) (bnormSqOf exampleSystemA.b exampleSystemA.n) (10 - 0) 0
        (initState exampleSystemA) = (0, conv1StateA) ∧
    conv1StateA.sys.x = vector_axpy conv1StateA.alpha conv1StateA.p
      (initState exampleSystemA).sys.x (initState exampleSystemA).sys.n ∧
    bicgstab_finish 10 (bicgstab_loop (1/2) (bnormSqOf exampleSystemA.b exampleSystemA.n)
        (10 - 0) 0 (initState exampleSystemA)) = ((0 : Int), conv1StateA.sys) :=
  claim_C1_amended (1/2) (bnormSqOf exampleSystemA.b exampleSystemA.n) 10 0
    (initState exampleSystemA) conv1StateA (by decide) (by with_unfolding_all decide)

/-! ### Claim C2 -/

/-- Claim C2 evaluation at the failing input: on `exampleSystemB` with
tol = 1/5 and max_iter = 1 the second convergence check passes at loop index
0 — i.e. before max_iter is exhausted — yet the solver returns the failure
sentinel -1, because `iter++` before the break makes the post-loop test
`iter >= max_iter` true.  With max_iter = 2 the identical single iteration of
work returns 1.  (The C code prints "converged at iteration 1" and then
"did not converge within 1 iterations" on the same run.) -/
theorem claim_C2_code_bug_eval :
    (bicgstab_step (1/5) (bnormSqOf exampleSystemB.b exampleSystemB.n) 0
        (initState exampleSystemB)).isConv2 = true ∧
    bicgstab_serial exampleSystemB 1 (1/5)
      = (-1, { exampleSystemB with x := [7/15, 13/15] }) ∧
    bicgstab_serial exampleSystemB 2 (1/5)
      = (1, { exampleSystemB with x := [7/15, 13/15] }) := by
  with_unfolding_all decide

/-! ### Claim C3 -/

/-- Claim C3: if at loop index k < max_iter the freshly computed
rho = dot(r0, r) satisfies |rho| < 1e-30, the loop terminates immediately
with iteration count k, the solver returns k — non-negative, never the
sentinel -1 — and the system (in particular x) is exactly as accumulated
before this iteration. -/
theorem claim_C3_rho_breakdown (tol bnormSq : ℚ) (max_iter k : ℕ) (st : BState)
    (hk : k < max_iter)
    (hrho : |dot_product (r0_init st.sys.n) st.r st.sys.n| < breakdownEps) :
    bicgstab_loop tol bnormSq (max_iter - k) k st
      = (k, { st with rho := dot_product (r0_init st.sys.n) st.r st.sys.n }) ∧
    bicgstab_finish max_iter (bicgstab_loop tol bnormSq (max_iter - k) k st)
      = ((k : Int), st.sys) ∧
    (0 : Int) ≤ ((k : ℕ) : Int) ∧ ((k : ℕ) : Int) ≠ -1 := by
  have h1 := rho_breakdown_loop tol bnormSq max_iter k st hk hrho
  refine ⟨h1, ?_, Int.natCast_nonneg k, by omega⟩
  rw [h1]
  simp [bicgstab_finish, Nat.not_le.mpr hk]

/-- Witness for claim C3: a zero right-hand side makes rho = 0 at loop
index 0, so the solve with max_iter = 5 stops at once and returns 0. -/
theorem claim_C3_rho_breakdown_witness :
    bicgstab_loop (1/100) 1 (5 - 0) 0 (initState (zeroRhsSystem exampleSystemA.A 1))
      = (0, { initState (zeroRhsSystem exampleSystemA.A 1) with
          rho := dot_product (r0_init 1)
            (initState (zeroRhsSystem exampleSystemA.A 1)).r 1 }) ∧
    bicgstab_finish 5 (bicgstab_loop (1/100) 1 (5 - 0) 0
        (initState (zeroRhsSystem exampleSystemA.A 1)))
      = ((0 : Int), zeroRhsSystem exampleSystemA.A 1) ∧
    (0 : Int) ≤ (((0 : ℕ) : ℕ) : Int) ∧ (((0 : ℕ) : ℕ) : Int) ≠ -1 :=
  claim_C3_rho_breakdown (1/100) 1 5 0 (initState (zeroRhsSystem exampleSystemA.A 1))
    (by decide) (by with_unfolding_all decide)

/-! ### Claim C4 -/

/-- Claim C4: with max_iter = 0 both solvers return the failure sentinel -1
immediately, and the returned system — including x — is the input system,
completely unmodified. -/
theorem claim_C4_max_iter_zero (sys : FEMSystem) (tol : ℚ) (T : ℕ) :
    bicgstab_serial sys 0 tol = (-1, sys) ∧ bicgstab_parallel sys 0 tol T = (-1, sys) :=
  ⟨rfl, rfl⟩

/-! ### Claim C5 -/

/-- Claim C5: for any matrix A, any max_iter > 0 and tol > 0, solving with the
zero right-hand side and pre-zeroed x terminates at iteration 0 (hence "0 or
1": rho = dot(1⃗, 0⃗) = 0 triggers the breakdown exit in the very first
iteration), x stays the zero vector, and the substituted bnorm is 1 (in the
squared embedding, bnormSq = 1). -/
theorem claim_C5_zero_rhs (A : CSRMatrix) (n max_iter : ℕ) (tol : ℚ)
    (hmi : 0 < max_iter) (htol : 0 < tol) :
    ((bicgstab_serial (zeroRhsSystem A n) max_iter tol).1 = 0 ∨
      (bicgstab_serial (zeroRhsSystem A n) max_iter tol).1 = 1) ∧
    (bicgstab_serial (zeroRhsSystem A n) max_iter tol).2.x = List.replicate n 0 ∧
    bnormSqOf (zeroRhsSystem A n).b (zeroRhsSystem A n).n = 1 := by
  have hr : (initState (zeroRhsSystem A n)).r = List.replicate n 0 :=
    vector_copy_replicate_zero n n
  have hrho : |dot_product (r0_init (initState (zeroRhsSystem A n)).sys.n)
      (initState (zeroRhsSystem A n)).r (initState (zeroRhsSystem A n)).sys.n|
      < breakdownEps := by
    rw [hr]
    show |dot_product (r0_init n) (List.replicate n 0) n| < breakdownEps
    rw [dot_product_replicate_zero_right, abs_zero]
    norm_num [breakdownEps]
  have hloop := rho_breakdown_loop tol
    (bnormSqOf (zeroRhsSystem A n).b (zeroRhsSystem A n).n) max_iter 0
    (initState (zeroRhsSystem A n)) hmi hrho
  rw [Nat.sub_zero] at hloop
  have hser : bicgstab_serial (zeroRhsSystem A n) max_iter tol
      = ((0 : Int), zeroRhsSystem A n) := by
    unfold bicgstab_serial
    rw [hloop]
    simp [bicgstab_finish, Nat.not_le.mpr hmi]
    rfl
  refine ⟨Or.inl (by rw [hser]), by rw [hser]; rfl, ?_⟩
  show bnormSqOf (List.replicate n 0) n = 1
  unfold bnormSqOf
  rw [if_pos]
  show dot_product (List.replicate n 0) (List.replicate n 0) n = 0
  exact dot_product_replicate_zero_right _ n n

/-- Witness for claim C5 at A = the 1-by-1 identity, n = 1, max_iter = 3,
tol = 1/100. -/
theorem claim_C5_zero_rhs_witness :
    ((bicgstab_serial (zeroRhsSystem exampleSystemA.A 1) 3 (1/100)).1 = 0 ∨
      (bicgstab_serial (zeroRhsSystem exampleSystemA.A 1) 3 (1/100)).1 = 1) ∧
    (bicgstab_serial (zeroRhsSystem exampleSystemA.A 1) 3 (1/100)).2.x
      = List.replicate 1 0 ∧
    bnormSqOf (zeroRhsSystem exampleSystemA.A 1).b (zeroRhsSystem exampleSystemA.A 1).n
      = 1 :=
  claim_C5_zero_rhs exampleSystemA.A 1 3 (1/100) (by decide)
    (by with_unfolding_all decide)

/-! ### Claim C6 -/

/-- Claim C6: over exact arithmetic — where the order of combining the
reduction's partial sums is irrelevant — the parallel solver performs the same
arithmetic per iteration as the serial solver, so for every system, max_iter,
tol and worker count T > 0, `bicgstab_parallel` returns exactly the same
iteration count and final system (hence final x) as `bicgstab_serial`. -/
theorem claim_C6_parallel_matches_serial (sys : FEMSystem) (max_iter : ℕ) (tol : ℚ)
    (T : ℕ) (hT : 0 < T) :
    bicgstab_parallel sys max_iter tol T = bicgstab_serial sys max_iter tol := by
  unfold bicgstab_parallel bicgstab_serial
  rw [bnormSqOf_parallel_eq sys.b sys.n hT, initState_parallel_eq,
    bicgstab_loop_parallel_eq tol (bnormSqOf sys.b sys.n) hT]

/-- Witness for claim C6 on `exampleSystemB` with max_iter = 5, tol = 1/5 and
2 workers. -/
theorem claim_C6_parallel_matches_serial_witness :
    bicgstab_parallel exampleSystemB 5 (1/5) 2 = bicgstab_serial exampleSystemB 5 (1/5) :=
  claim_C6_parallel_matches_serial exampleSystemB 5 (1/5) 2 (by decide)

/-! ### Claim C7 -/

/-- Claim C7: in both solvers the shadow residual r0 is the constant all-ones
vector of length n (not a copy of r), and consequently the rho computed at
iteration 0 — dot(r0, r) with r = b after initialization — equals the sum of
the components of r. -/
theorem claim_C7_shadow_residual (n : ℕ) (r : List ℚ) (sys : FEMSystem)
    (hr : r.length = n) (hb : sys.b.length = sys.n) :
    r0_init n = List.replicate n 1 ∧
    r0_init_parallel n = List.replicate n 1 ∧
    dot_product (r0_init n) r n = r.sum ∧
    dot_product (r0_init sys.n) (initState sys).r sys.n = sys.b.sum := by
  refine ⟨r0_init_eq_replicate n,
    (r0_init_parallel_eq n).trans (r0_init_eq_replicate n),
    dot_product_ones hr, ?_⟩
  have hcopy : (initState sys).r = sys.b := vector_copy_eq_self hb
  rw [hcopy, dot_product_ones hb]

/-- Witness for claim C7 at n = 2, r = (3, 5), and `exampleSystemB`. -/
theorem claim_C7_shadow_residual_witness :
    r0_init 2 = List.replicate 2 1 ∧
    r0_init_parallel 2 = List.replicate 2 1 ∧
    dot_product (r0_init 2) [3, 5] 2 = ([3, 5] : List ℚ).sum ∧
    dot_product (r0_init exampleSystemB.n) (initState exampleSystemB).r exampleSystemB.n
      = exampleSystemB.b.sum :=
  claim_C7_shadow_residual 2 [3, 5] exampleSystemB rfl rfl

/-! ### Claim C8 -/

/-- Claim C8: `matvec_csr` applied to the n-by-n identity matrix in CSR form
(one non-zero per row, on the diagonal, equal to 1) returns x itself for
every x of length n; and for any CSR matrix the output is a fully fresh
vector of length A.n holding the row-wise sums (its length — and content —
never depend on any previous output buffer). -/
theorem claim_C8_matvec_identity (A : CSRMatrix) (n : ℕ) (x : List ℚ)
    (hx : x.length = n) :
    matvec_csr (identityCSR n) x = x ∧ (matvec_csr A x).length = A.n :=
  ⟨matvec_identityCSR hx, matvec_csr_length A x⟩

/-- Witness for claim C8 at n = 2, x = (3, 5) and A = the matrix of
`exampleSystemB`. -/
theorem claim_C8_matvec_identity_witness :
    matvec_csr (identityCSR 2) [3, 5] = [3, 5] ∧
    (matvec_csr exampleSystemB.A [3, 5]).length = exampleSystemB.A.n :=
  claim_C8_matvec_identity exampleSystemB.A 2 [3, 5] rfl

/-! ### Claim C9 -/

/-- Claim C9: on every exit path, a solve call (serial or parallel, any
max_iter, tol and worker count) leaves the matrix A — hence n, nnz, values,
col_idx and row_ptr — and the right-hand side b of the system unchanged; x is
the only field of the returned system that can differ from the input. -/
theorem claim_C9_frame (sys : FEMSystem) (max_iter : ℕ) (tol : ℚ) (T : ℕ) :
    (bicgstab_serial sys max_iter tol).2.A = sys.A ∧
    (bicgstab_serial sys max_iter tol).2.b = sys.b ∧
    (bicgstab_serial sys max_iter tol).2.n = sys.n ∧
    (bicgstab_parallel sys max_iter tol T).2.A = sys.A ∧
    (bicgstab_parallel sys max_iter tol T).2.b = sys.b ∧
    (bicgstab_parallel sys max_iter tol T).2.n = sys.n := by
  obtain ⟨hA, hb, hn⟩ :=
    bicgstab_loop_frame tol (bnormSqOf sys.b sys.n) max_iter 0 (initState sys)
  obtain ⟨hA', hb', hn'⟩ :=
    bicgstab_loop_parallel_frame tol (bnormSqOf_parallel sys.b sys.n T) T max_iter 0
      (initState_parallel sys)
  exact ⟨hA, hb, hn, hA', hb', hn'⟩

/-! ### Claim C10 -/

/-- Claim C10: for every grid with nx ≥ 2 and ny ≥ 2, the CSR matrix built by
`create_fem_system` satisfies the CSR invariant: row_ptr[0] = 0, row_ptr has
n + 1 entries and is monotonically non-decreasing, row_ptr[n] = nnz (with
values and col_idx of length nnz), every col_idx entry lies in [0, n), and
the entries in index range [row_ptr[i], row_ptr[i+1]) are exactly the
(value, column) pairs emitted for node i. -/
theorem claim_C10_csr_invariant (nx ny : ℕ) (hnx : 2 ≤ nx) (hny : 2 ≤ ny) :
    (create_fem_system nx ny).A.row_ptr.getD 0 0 = 0 ∧
    (create_fem_system nx ny).A.row_ptr.length = (create_fem_system nx ny).A.n + 1 ∧
    (∀ i, i < (create_fem_system nx ny).A.n →
      (create_fem_system nx ny).A.row_ptr.getD i 0
        ≤ (create_fem_system nx ny).A.row_ptr.getD (i + 1) 0) ∧
    (create_fem_system nx ny).A.row_ptr.getD ((create_fem_system nx ny).A.n) 0
      = (create_fem_system nx ny).A.nnz ∧
    (create_fem_system nx ny).A.values.length = (create_fem_system nx ny).A.nnz ∧
    (create_fem_system nx ny).A.col_idx.length = (create_fem_system nx ny).A.nnz ∧
    (∀ c ∈ (create_fem_system nx ny).A.col_idx, c < (create_fem_system nx ny).A.n) ∧
    (∀ i, i < (create_fem_system nx ny).A.n →
      ((((create_fem_system nx ny).A.values.zip
            ((create_fem_system nx ny).A.col_idx)).drop
          ((create_fem_system nx ny).A.row_ptr.getD i 0)).take
            ((create_fem_system nx ny).A.row_ptr.getD (i + 1) 0
              - (create_fem_system nx ny).A.row_ptr.getD i 0))
        = nodeEntriesAt nx ny i) := by
  refine ⟨?_, ?_, ?_, ?_, ?_, ?_, ?_, ?_⟩
  · rw [row_ptr_getD_eq nx ny (by omega)]
    rfl
  · rw [create_A_row_ptr, create_A_n, List.length_map, List.length_range]
  · intro i hi
    rw [create_A_n] at hi
    rw [row_ptr_getD_eq nx ny (by omega), row_ptr_getD_eq nx ny (by omega)]
    exact prefixEntries_length_le nx ny i
  · rw [create_A_n, row_ptr_getD_eq nx ny (by omega), create_A_nnz,
      femEntries_eq_prefixEntries, Nat.mul_comm ny nx]
  · rw [create_A_values, create_A_nnz, List.length_map]
  · rw [create_A_col_idx, create_A_nnz, List.length_map]
  · rw [create_A_col_idx, create_A_n]
    intro c hc
    rcases List.mem_map.mp hc with ⟨pr, hpr, rfl⟩
    unfold femEntries at hpr
    rcases List.mem_flatMap.mp hpr with ⟨i, hi, hpr2⟩
    rcases List.mem_flatMap.mp hpr2 with ⟨j, hj, hpr3⟩
    exact mem_nodeEntries_snd_lt (List.mem_range.mp hi) (List.mem_range.mp hj) pr hpr3
  · intro i hi
    rw [create_A_n] at hi
    rw [femEntries_zip, row_ptr_getD_eq nx ny (by omega), row_ptr_getD_eq nx ny (by omega)]
    exact femEntries_slice nx ny hi

/-- Witness for claim C10 on the 2-by-2 grid. -/
theorem claim_C10_csr_invariant_witness :
    (create_fem_system 2 2).A.row_ptr.getD 0 0 = 0 ∧
    (create_fem_system 2 2).A.row_ptr.length = (create_fem_system 2 2).A.n + 1 ∧
    (∀ i, i < (create_fem_system 2 2).A.n →
      (create_fem_system 2 2).A.row_ptr.getD i 0
        ≤ (create_fem_system 2 2).A.row_ptr.getD (i + 1) 0) ∧
    (create_fem_system 2 2).A.row_ptr.getD ((create_fem_system 2 2).A.n) 0
      = (create_fem_system 2 2).A.nnz ∧
    (create_fem_system 2 2).A.values.length = (create_fem_system 2 2).A.nnz ∧
    (create_fem_system 2 2).A.col_idx.length = (create_fem_system 2 2).A.nnz ∧
    (∀ c ∈ (create_fem_system 2 2).A.col_idx, c < (create_fem_system 2 2).A.n) ∧
    (∀ i, i < (create_fem_system 2 2).A.n →
      ((((create_fem_system 2 2).A.values.zip
            ((create_fem_system 2 2).A.col_idx)).drop
          ((create_fem_system 2 2).A.row_ptr.getD i 0)).take
            ((create_fem_system 2 2).A.row_ptr.getD (i + 1) 0
              - (create_fem_system 2 2).A.row_ptr.getD i 0))
        = nodeEntriesAt 2 2 i) :=
  claim_C10_csr_invariant 2 2 (by decide) (by decide)
